import Mathlib

/-!
Shallow embedding of the IPC correlation engine of `src/model/ipc/IPCClient.ts`.

The source (`IPCClient`) lets a child process issue asynchronous calls to its
parent over `process.send` / `process.on("message")`:

* `send(option, timeout = 5000)` builds a message whose `id` is
  `new Date().getTime()`, registers a one-shot listener for that id on a shared
  `events.EventEmitter`, sends the message on the next tick when `process.send`
  exists (otherwise it only logs an error), and, when `timeout > 0`, arms a
  timer that calls `removeAllListeners(id)` and rejects the promise with
  `Error("IPCTimeout")`.
* `ipcInit` installs the inbound dispatcher: a message with a defined `id`
  field is emitted to the listeners registered under that id (a reply); a
  message without `id` and with `type === "notifyClient"` triggers
  `socketIO.notifyClient()`; `type === "pushEncode"` triggers
  `encodeManage.push(value)`; anything else is ignored.

The embedding models the emitter's listener registry, the per-call promises
(one-shot: settling an already settled promise is a no-op, as in JS), the armed
timers and the push side effects as an explicit state, and each scheduled
callback (inbound message, timer firing, a `send` call, loss of the channel)
as an event of a step function.  Payload values are modelled as `Nat`.
-/

namespace IPC

/-- Outcome of a settled promise: the JS promise is either resolved with a
value (possibly `undefined`, modelled `none`) or rejected with an `Error`. -/
inductive ErrKind where
  | remote (msg : String)
  | ipcTimeout
  deriving DecidableEq, Repr

/-- Status of the promise returned by `send`. -/
inductive CallStatus where
  | pending
  | resolved (res : Option Nat)
  | rejected (e : ErrKind)
  deriving DecidableEq, Repr

/-- One call issued through `send`: the allocated message id
(`new Date().getTime()`) and the state of the returned promise. -/
structure CallRec where
  id : Nat
  status : CallStatus
  deriving DecidableEq, Repr

/-- Inbound wire message (`ReplayMessage | ParentMessage`): all fields are
optional; a defined `id` marks a reply. -/
structure InMessage where
  id : Option Nat := none
  result : Option Nat := none
  error : Option String := none
  type : Option String := none
  value : Option Nat := none
  deriving DecidableEq, Repr

/-- State of one `IPCClient` instance.

`calls` is indexed by call index (order of `send` invocations); `listeners`
is the emitter's registry of one-shot listeners as pairs (message id, call
index); `timers` holds the call indices whose timeout timer is armed and has
not fired; `wire` records the ids of messages actually passed to
`process.send`; `errorLogs` counts `log.system.error` calls; `notifies`
counts `socketIO.notifyClient()` calls; `encodes` records the values passed
to `encodeManage.push`. -/
structure State where
  calls : List CallRec
  listeners : List (Nat × Nat)
  timers : List Nat
  wire : List Nat
  errorLogs : Nat
  notifies : Nat
  encodes : List (Option Nat)
  deriving DecidableEq, Repr

/-- The client right after construction: nothing pending. -/
def init : State := ⟨[], [], [], [], 0, 0, []⟩

/-- Settle the promise of the call at index `c`: a JS promise settles at most
once, so an already settled call is left unchanged. -/
def settleAt : List CallRec → Nat → CallStatus → List CallRec
  | [], _, _ => []
  | r :: rs, 0, out => (if r.status = CallStatus.pending then { r with status := out } else r) :: rs
  | r :: rs, c + 1, out => r :: settleAt rs c out

/-- Settle every call whose index is listed, in order. -/
def settleCalls (cs : List CallRec) (idxs : List Nat) (out : CallStatus) : List CallRec :=
  idxs.foldl (fun acc c => settleAt acc c out) cs

/-- Outcome a reply message produces on the listener's promise
(lines 94-100 of the source): no `error` field resolves with `result`
(possibly `undefined`); a present `error` rejects with `Error(error)`. -/
def outcomeOf (m : InMessage) : CallStatus :=
  match m.error with
  | none => CallStatus.resolved m.result
  | some e => CallStatus.rejected (ErrKind.remote e)

/-- `listener.emit(id, msg)`: every one-shot listener registered under `i`
fires with the message (settling its call) and is removed; listeners under
other ids are untouched. -/
def emitReply (st : State) (i : Nat) (out : CallStatus) : State :=
  let matched := st.listeners.filter (fun p => decide (p.1 = i))
  { st with
    listeners := st.listeners.filter (fun p => decide (¬p.1 = i)),
    calls := settleCalls st.calls (matched.map (fun p => p.2)) out }

/-- The dispatcher installed by `ipcInit` (lines 55-68 of the source). -/
def handleMessage (st : State) (m : InMessage) : State :=
  match m.id with
  | some i => emitReply st i (outcomeOf m)
  | none =>
    match m.type with
    | some t =>
      if t = "notifyClient" then { st with notifies := st.notifies + 1 }
      else if t = "pushEncode" then { st with encodes := st.encodes ++ [m.value] }
      else st
    | none => st

/-- `send(option, timeout)` at a clock reading `now` (lines 75-108): the new
call's id is the clock value; a one-shot listener is registered under it; a
timer is armed exactly when `timeout > 0`; the message is written to the
channel when `process.send` is defined (`avail`), otherwise an error is only
logged. -/
def sendStep (st : State) (timeoutVal : Int) (now : Nat) (avail : Bool) : State :=
  let c := st.calls.length
  { st with
    calls := st.calls ++ [{ id := now, status := CallStatus.pending }],
    listeners := st.listeners ++ [(now, c)],
    timers := if timeoutVal > 0 then st.timers ++ [c] else st.timers,
    wire := if avail then st.wire ++ [now] else st.wire,
    errorLogs := if avail then st.errorLogs else st.errorLogs + 1 }

/-- The timeout timer of call `c` fires (lines 102-107): if still armed, it
removes every listener registered under the call's id and rejects the call's
promise with `Error("IPCTimeout")` (a no-op on an already settled promise). -/
def fireTimer (st : State) (c : Nat) : State :=
  if c ∈ st.timers then
    match st.calls[c]? with
    | some r =>
      { st with
        timers := st.timers.erase c,
        listeners := st.listeners.filter (fun p => decide (¬p.1 = r.id)),
        calls := settleAt st.calls c (CallStatus.rejected ErrKind.ipcTimeout) }
    | none => { st with timers := st.timers.erase c }
  else st

/-- One scheduled callback on the event loop. -/
inductive Event where
  | call (timeoutVal : Int) (now : Nat) (avail : Bool)
  | inbound (m : InMessage)
  | timer (c : Nat)
  | chanLoss
  deriving DecidableEq, Repr

/-- Effect of one event.  The source registers no handler for loss of the
channel, so `chanLoss` leaves the state unchanged. -/
def step (st : State) (e : Event) : State :=
  match e with
  | Event.call t n a => sendStep st t n a
  | Event.inbound m => handleMessage st m
  | Event.timer c => fireTimer st c
  | Event.chanLoss => st

/-- Run a sequence of scheduled callbacks. -/
def run (st : State) (es : List Event) : State := es.foldl step st

/-- Size of the correlation table (the emitter's listener registry). -/
def tableSize (st : State) : Nat := st.listeners.length

/-- Number of in-flight calls: calls whose promise is still pending. -/
def inFlight (st : State) : Nat :=
  (st.calls.filter (fun r => decide (r.status = CallStatus.pending))).length

/-- Every armed timer belongs to an existing call. -/
def timersBound (st : State) : Prop := ∀ x ∈ st.timers, x < st.calls.length

/-- Call `c` exists, has no armed timer, and its promise is not rejected with
the timeout error. -/
def neverTimeoutInv (st : State) (c : Nat) : Prop :=
  c ∉ st.timers ∧ c < st.calls.length ∧
    ∀ r, st.calls[c]? = some r → r.status ≠ CallStatus.rejected ErrKind.ipcTimeout

/-- A call event allocates an identifier different from the identifier of
every existing call (the uniqueness discipline the spec demands of the
identifier generator); other events are unrestricted. -/
def freshOk (st : State) : Event → Bool
  | Event.call _ n _ => st.calls.all (fun r => decide (¬r.id = n))
  | _ => true

/-- The whole trace observes the identifier-freshness discipline. -/
def okRun : State → List Event → Bool
  | _, [] => true
  | st, e :: es => freshOk st e && okRun (step st e) es

/-- Correspondence between the listener table and the pending calls: every
listener belongs to a pending call carrying the listener's identifier, every
pending call has its listener registered, listeners of distinct calls are
distinct, and identifiers of distinct calls are distinct. -/
def tableInv (st : State) : Prop :=
  (∀ p ∈ st.listeners, ∃ r, st.calls[p.2]? = some r ∧ r.id = p.1 ∧
      r.status = CallStatus.pending) ∧
    (∀ c r, st.calls[c]? = some r → r.status = CallStatus.pending →
      (r.id, c) ∈ st.listeners) ∧
    (st.listeners.map (fun p => p.2)).Nodup ∧
    ∀ (c c' : Nat) (r r' : CallRec), st.calls[c]? = some r → st.calls[c']? = some r' →
      r.id = r'.id → c = c'

/-! ### Basic lemmas about settling -/

lemma getElem?_append_lt {α : Type} (l₁ l₂ : List α) (n : Nat) (h : n < l₁.length) :
    (l₁ ++ l₂)[n]? = l₁[n]? := by
  rw [List.getElem?_append]
  simp [h]

/-- Unfolding of `fireTimer` when the timer is armed and the call exists. -/
lemma fireTimer_armed (st : State) (c : Nat) (r : CallRec)
    (hm : c ∈ st.timers) (hr : st.calls[c]? = some r) :
    fireTimer st c =
      { st with
        timers := st.timers.erase c,
        listeners := st.listeners.filter (fun p => decide (¬p.1 = r.id)),
        calls := settleAt st.calls c (CallStatus.rejected ErrKind.ipcTimeout) } := by
  simp [fireTimer, hm, hr]

lemma settleAt_getElem? (cs : List CallRec) (c : Nat) (out : CallStatus) (j : Nat) :
    (settleAt cs c out)[j]? = (cs[j]?).map
      (fun r => if j = c ∧ r.status = CallStatus.pending then { r with status := out } else r) := by
  induction cs generalizing c j with
  | nil => simp [settleAt]
  | cons r rs ih =>
    cases c with
    | zero =>
      cases j with
      | zero => by_cases hp : r.status = CallStatus.pending <;> simp [settleAt, hp]
      | succ j => simp [settleAt]
    | succ c =>
      cases j with
      | zero => simp [settleAt]
      | succ j => simpa [settleAt] using ih c j

lemma settleAt_length (cs : List CallRec) (c : Nat) (out : CallStatus) :
    (settleAt cs c out).length = cs.length := by
  induction cs generalizing c with
  | nil => rfl
  | cons r rs ih => cases c <;> simp [settleAt, ih]

lemma settleCalls_getElem? (cs : List CallRec) (idxs : List Nat) (out : CallStatus)
    (hout : out ≠ CallStatus.pending) (j : Nat) :
    (settleCalls cs idxs out)[j]? = (cs[j]?).map
      (fun r => if j ∈ idxs ∧ r.status = CallStatus.pending then { r with status := out } else r) := by
  induction idxs generalizing cs with
  | nil => simp [settleCalls]
  | cons d rest ih =>
    have hstep : settleCalls cs (d :: rest) out = settleCalls (settleAt cs d out) rest out := rfl
    rw [hstep, ih, settleAt_getElem?]
    cases h : cs[j]? with
    | none => simp
    | some r =>
      by_cases hjd : j = d
      · by_cases hp : r.status = CallStatus.pending
        · simp [hjd, hp, hout]
        · simp [hjd, hp]
      · by_cases hp : r.status = CallStatus.pending
        · by_cases hr : j ∈ rest <;> simp [hjd, hp, hr]
        · simp [hjd, hp]

lemma settleCalls_length (cs : List CallRec) (idxs : List Nat) (out : CallStatus) :
    (settleCalls cs idxs out).length = cs.length := by
  induction idxs generalizing cs with
  | nil => rfl
  | cons d rest ih =>
    have hstep : settleCalls cs (d :: rest) out = settleCalls (settleAt cs d out) rest out := rfl
    rw [hstep, ih, settleAt_length]

lemma outcomeOf_ne_pending (m : InMessage) : outcomeOf m ≠ CallStatus.pending := by
  cases h : m.error <;> simp [outcomeOf, h]

/-- A settled call record survives any single scheduled callback unchanged:
`settleAt` only touches pending promises (a JS promise settles once), timer
firing and reply delivery only remove listeners and settle pending promises,
and a new `send` only appends. -/
lemma step_settled (st : State) (e : Event) (c : Nat) (r : CallRec)
    (hc : st.calls[c]? = some r) (hs : r.status ≠ CallStatus.pending) :
    (step st e).calls[c]? = some r := by
  have hlt : c < st.calls.length := by
    rcases List.getElem?_eq_some.mp hc with ⟨h, _⟩
    exact h
  cases e with
  | call t n a =>
    simp only [step, sendStep]
    rw [getElem?_append_lt _ _ _ hlt]
    exact hc
  | inbound m =>
    simp only [step, handleMessage]
    cases hid : m.id with
    | some i =>
      simp only [emitReply]
      rw [settleCalls_getElem? _ _ _ (outcomeOf_ne_pending m), hc]
      simp [hs]
    | none =>
      cases ht : m.type with
      | some t =>
        by_cases h1 : t = "notifyClient"
        · simp [h1, hc]
        · by_cases h2 : t = "pushEncode" <;> simp [h1, h2, hc]
      | none => exact hc
  | timer d =>
    simp only [step, fireTimer]
    by_cases hd : d ∈ st.timers
    · simp only [hd, if_true]
      cases hr : st.calls[d]? with
      | some rd =>
        simp only
        rw [settleAt_getElem?, hc]
        by_cases hcd : c = d
        · subst hcd
          rw [hc] at hr
          cases hr
          simp [hs]
        · simp [hcd]
      | none => simpa using hc
    · simp [hd, hc]
  | chanLoss => exact hc

lemma run_settled (st : State) (es : List Event) (c : Nat) (r : CallRec)
    (hc : st.calls[c]? = some r) (hs : r.status ≠ CallStatus.pending) :
    (run st es).calls[c]? = some r := by
  induction es generalizing st with
  | nil => exact hc
  | cons e es ih => exact ih (step st e) (step_settled st e c r hc hs)

/-! ### Claim theorems -/

/-- C1.  At-most-once delivery: once the promise of a call has settled (it is
no longer pending), no further scheduled callbacks — however many reply
messages or timeout firings reference its identifier — ever change its
outcome: the later one is a no-op and the caller is never double-fulfilled. -/
theorem at_most_once (st : State) (es : List Event) (c : Nat) (r : CallRec)
    (hc : st.calls[c]? = some r) (hs : r.status ≠ CallStatus.pending) :
    (run st es).calls[c]? = some r :=
  run_settled st es c r hc hs

/-- Witness for C1: a call resolved by a reply keeps its value through a later
timeout firing and a later duplicate reply carrying the same identifier. -/
theorem at_most_once_witness :
    (run (run init [Event.call 5000 7 true, Event.inbound { id := some 7, result := some 5 }])
        [Event.timer 0, Event.inbound { id := some 7, result := some 9 }]).calls[0]? =
      some { id := 7, status := CallStatus.resolved (some 5) } :=
  at_most_once _ _ 0 { id := 7, status := CallStatus.resolved (some 5) } (by decide) (by decide)

/-- C2 counterexample: with the channel unavailable at call time
(`process.send` undefined), the code does not reject the promise at all — the
call is still pending — and the 5000 ms timeout timer IS armed; only an error
is logged and nothing is written to the channel. -/
theorem chan_unavailable_ce :
    (step init (Event.call 5000 100 false)).calls[0]? =
        some { id := 100, status := CallStatus.pending } ∧
      (step init (Event.call 5000 100 false)).timers = [0] ∧
      (step init (Event.call 5000 100 false)).wire = [] ∧
      (step init (Event.call 5000 100 false)).errorLogs = 1 := by
  refine ⟨rfl, rfl, rfl, rfl⟩

/-- C2 amended: when the channel is unavailable at call time the code only
logs an error and skips the send; the future is not rejected (it stays
pending) and the timeout timer is still armed as usual, so the call
eventually rejects with the generic Timeout error, not ChannelUnavailable. -/
theorem chan_unavailable_behavior (st : State) (t : Int) (n : Nat) (ht : 0 < t) :
    (step st (Event.call t n false)).wire = st.wire ∧
    (step st (Event.call t n false)).errorLogs = st.errorLogs + 1 ∧
    (step st (Event.call t n false)).calls[st.calls.length]? =
      some { id := n, status := CallStatus.pending } ∧
    st.calls.length ∈ (step st (Event.call t n false)).timers ∧
    (step (step st (Event.call t n false)) (Event.timer st.calls.length)).calls[st.calls.length]? =
      some { id := n, status := CallStatus.rejected ErrKind.ipcTimeout } := by
  have hcall : (step st (Event.call t n false)).calls[st.calls.length]? =
      some { id := n, status := CallStatus.pending } := by
    simp [step, sendStep]
  have htm : st.calls.length ∈ (step st (Event.call t n false)).timers := by
    simp [step, sendStep, ht]
  refine ⟨by simp [step, sendStep], by simp [step, sendStep], hcall, htm, ?_⟩
  show (fireTimer (step st (Event.call t n false)) st.calls.length).calls[st.calls.length]? = _
  rw [fireTimer_armed _ _ _ htm hcall]
  simp only
  rw [settleAt_getElem?, hcall]
  simp

/-- Witness for C2 amended, at a concrete state and timeout. -/
theorem chan_unavailable_behavior_witness :
    (step init (Event.call 5000 42 false)).wire = init.wire ∧
    (step init (Event.call 5000 42 false)).errorLogs = init.errorLogs + 1 ∧
    (step init (Event.call 5000 42 false)).calls[init.calls.length]? =
      some { id := 42, status := CallStatus.pending } ∧
    init.calls.length ∈ (step init (Event.call 5000 42 false)).timers ∧
    (step (step init (Event.call 5000 42 false)) (Event.timer init.calls.length)).calls[init.calls.length]? =
      some { id := 42, status := CallStatus.rejected ErrKind.ipcTimeout } :=
  chan_unavailable_behavior init 5000 42 (by decide)

/-- C4 counterexample: two calls issued within the same clock millisecond
(`Date.getTime()` returns 100 for both) are simultaneously outstanding yet
share the identifier 100. -/
theorem id_collision_ce :
    (run init [Event.call 5000 100 true, Event.call 5000 100 true]).calls[0]? =
        some { id := 100, status := CallStatus.pending } ∧
      (run init [Event.call 5000 100 true, Event.call 5000 100 true]).calls[1]? =
        some { id := 100, status := CallStatus.pending } := by
  refine ⟨rfl, rfl⟩

/-- C4 amended: the identifier of a call is the wall-clock reading at call
time, so two outstanding calls receive distinct identifiers exactly when they
are issued at distinct clock readings; within the same millisecond they
collide. -/
theorem ids_from_clock (st : State) (t1 t2 : Int) (n1 n2 : Nat) (a1 a2 : Bool)
    (h : n1 ≠ n2) :
    (run st [Event.call t1 n1 a1, Event.call t2 n2 a2]).calls[st.calls.length]? =
        some { id := n1, status := CallStatus.pending } ∧
      (run st [Event.call t1 n1 a1, Event.call t2 n2 a2]).calls[st.calls.length + 1]? =
        some { id := n2, status := CallStatus.pending } ∧
      (n1 : Nat) ≠ n2 := by
  have hcalls : (run st [Event.call t1 n1 a1, Event.call t2 n2 a2]).calls =
      (st.calls ++ [{ id := n1, status := CallStatus.pending }]) ++
        [{ id := n2, status := CallStatus.pending }] := rfl
  refine ⟨?_, ?_, h⟩
  · rw [hcalls, getElem?_append_lt _ _ _ (by simp), List.getElem?_concat_length]
  · rw [hcalls,
      show st.calls.length + 1 =
        (st.calls ++ [({ id := n1, status := CallStatus.pending } : CallRec)]).length from by simp,
      List.getElem?_concat_length]

/-- Witness for C4 amended at two distinct clock readings. -/
theorem ids_from_clock_witness :
    (run init [Event.call 5000 100 true, Event.call 5000 101 true]).calls[init.calls.length]? =
        some { id := 100, status := CallStatus.pending } ∧
      (run init [Event.call 5000 100 true, Event.call 5000 101 true]).calls[init.calls.length + 1]? =
        some { id := 101, status := CallStatus.pending } ∧
      (100 : Nat) ≠ 101 :=
  ids_from_clock init 5000 5000 100 101 true true (by decide)

/-- C5.  The source registers no handler for loss of the channel, so tearing
the channel down while a call is outstanding leaves that call pending forever
(here: issued with timeout 0 so no timer can save it) and leaves its entry in
the table; no ChannelClosed rejection ever happens. -/
theorem chan_loss_ce :
    (run init [Event.call 0 5 true, Event.chanLoss]).calls[0]? =
        some { id := 5, status := CallStatus.pending } ∧
      (run init [Event.call 0 5 true, Event.chanLoss]).listeners = [(5, 0)] := by
  exact ⟨rfl, rfl⟩

/-- C3.  Reply outcome mapping: delivering a reply whose identifier matches a
pending registered call resolves that call with the reply's `result` payload
when the reply carries no `error` string (in particular, a reply with neither
`result` nor `error` resolves with the undefined value, `none`), and rejects
it with an error carrying the reply's `error` string when present. -/
theorem reply_outcome (st : State) (m : InMessage) (i c : Nat) (r : CallRec)
    (hm : m.id = some i) (hmem : (i, c) ∈ st.listeners)
    (hc : st.calls[c]? = some r) (hp : r.status = CallStatus.pending) :
    (step st (Event.inbound m)).calls[c]? =
      some { r with status :=
        match m.error with
        | none => CallStatus.resolved m.result
        | some e => CallStatus.rejected (ErrKind.remote e) } := by
  simp only [step, handleMessage, hm, emitReply]
  rw [settleCalls_getElem? _ _ _ (outcomeOf_ne_pending m), hc]
  have hcmem : c ∈ (st.listeners.filter (fun p => decide (p.1 = i))).map (fun p => p.2) :=
    List.mem_map.mpr ⟨(i, c), List.mem_filter.mpr ⟨hmem, by simp⟩, rfl⟩
  simp [hcmem, hp, outcomeOf]

/-- Witness for C3: a reply with neither `result` nor `error` resolves the
pending call with the undefined value. -/
theorem reply_outcome_witness :
    (step (step init (Event.call 5000 7 true)) (Event.inbound { id := some 7 })).calls[0]? =
      some { id := 7, status := CallStatus.resolved none } :=
  reply_outcome _ { id := some 7 } 7 0 { id := 7, status := CallStatus.pending }
    rfl (by decide) (by decide) rfl

/-- C7.  Dispatcher classification: an inbound message carrying an `id` field
is treated as a reply (forwarded to the emitter, leaving the push side
effects untouched); a message without `id` is treated as a push notification
dispatched on its `type` tag, never touching the correlation state; the tag
"notifyClient" triggers the client notification, "pushEncode" enqueues the
encode value, and a tag with no registered handler leaves the state entirely
unchanged. -/
theorem dispatcher_classification (st : State) (m : InMessage) :
    (∀ i, m.id = some i →
        step st (Event.inbound m) = emitReply st i (outcomeOf m) ∧
          (step st (Event.inbound m)).notifies = st.notifies ∧
          (step st (Event.inbound m)).encodes = st.encodes) ∧
      (m.id = none →
        (step st (Event.inbound m)).listeners = st.listeners ∧
          (step st (Event.inbound m)).calls = st.calls ∧
          (step st (Event.inbound m)).timers = st.timers) ∧
      (m.id = none → m.type = some "notifyClient" →
        step st (Event.inbound m) = { st with notifies := st.notifies + 1 }) ∧
      (m.id = none → m.type = some "pushEncode" →
        step st (Event.inbound m) = { st with encodes := st.encodes ++ [m.value] }) ∧
      (m.id = none → m.type ≠ some "notifyClient" → m.type ≠ some "pushEncode" →
        step st (Event.inbound m) = st) := by
  refine ⟨fun i hi => ?_, fun hn => ?_, fun hn ht => ?_, fun hn ht => ?_,
    fun hn ht1 ht2 => ?_⟩
  · refine ⟨?_, ?_, ?_⟩ <;> simp [step, handleMessage, hi, emitReply]
  · cases htt : m.type with
    | none => simp [step, handleMessage, hn, htt]
    | some t =>
      by_cases h1 : t = "notifyClient"
      · simp [step, handleMessage, hn, htt, h1]
      · by_cases h2 : t = "pushEncode" <;> simp [step, handleMessage, hn, htt, h1, h2]
  · simp [step, handleMessage, hn, ht]
  · simp [step, handleMessage, hn, ht]
  · cases htt : m.type with
    | none => simp [step, handleMessage, hn, htt]
    | some t =>
      have h1 : ¬t = "notifyClient" := fun hh => ht1 (by rw [htt, hh])
      have h2 : ¬t = "pushEncode" := fun hh => ht2 (by rw [htt, hh])
      simp [step, handleMessage, hn, htt, h1, h2]

/-- Witness for C7: a push message whose tag has no registered handler leaves
the state untouched. -/
theorem dispatcher_classification_witness :
    step init (Event.inbound { type := some "mystery" }) = init :=
  (dispatcher_classification init { type := some "mystery" }).2.2.2.2 rfl
    (by decide) (by decide)

/-- C8.  Unmatched reply is harmless: delivering a reply whose identifier
matches no registered listener leaves the whole client state unchanged — no
pending call record, future, timer or side effect is affected. -/
theorem unmatched_reply_harmless (st : State) (m : InMessage) (i : Nat)
    (hm : m.id = some i) (hno : ∀ p ∈ st.listeners, p.1 ≠ i) :
    step st (Event.inbound m) = st := by
  simp only [step, handleMessage, hm, emitReply]
  have hmatched : st.listeners.filter (fun p => decide (p.1 = i)) = [] := by
    rw [List.filter_eq_nil_iff]
    intro a ha
    simpa using hno a ha
  have hkeep : st.listeners.filter (fun p => decide (¬p.1 = i)) = st.listeners :=
    List.filter_eq_self.mpr (fun a ha => by simpa using hno a ha)
  rw [hmatched, hkeep]
  rfl

/-- Witness for C8: a reply with the unknown identifier 9 leaves a state with
one pending call under identifier 7 unchanged. -/
theorem unmatched_reply_harmless_witness :
    step (step init (Event.call 5000 7 true)) (Event.inbound { id := some 9 }) =
      step init (Event.call 5000 7 true) :=
  unmatched_reply_harmless _ { id := some 9 } 9 rfl (by decide)

/-- C10.  Identifier-collision fan-out: when several calls are pending under
the same identifier, one inbound reply carrying that identifier settles every
one of them with the same outcome, and one timeout firing for a call removes
every listener registered under that call's identifier. -/
theorem collision_fan_out (st : State) (m : InMessage) (i : Nat) (hm : m.id = some i) :
    (∀ c r, (i, c) ∈ st.listeners → st.calls[c]? = some r →
        r.status = CallStatus.pending →
        (step st (Event.inbound m)).calls[c]? = some { r with status := outcomeOf m }) ∧
      ∀ c r, c ∈ st.timers → st.calls[c]? = some r →
        ∀ p ∈ (step st (Event.timer c)).listeners, p.1 ≠ r.id := by
  constructor
  · intro c r hmem hc hp
    simp only [step, handleMessage, hm, emitReply]
    rw [settleCalls_getElem? _ _ _ (outcomeOf_ne_pending m), hc]
    have hcmem : c ∈ (st.listeners.filter (fun p => decide (p.1 = i))).map (fun p => p.2) :=
      List.mem_map.mpr ⟨(i, c), List.mem_filter.mpr ⟨hmem, by simp⟩, rfl⟩
    simp [hcmem, hp]
  · intro c r htm hc p hp
    rw [show step st (Event.timer c) = fireTimer st c from rfl,
      fireTimer_armed st c r htm hc] at hp
    simp only [List.mem_filter] at hp
    simpa using hp.2

/-- Witness for C10: two calls collide on identifier 100; a single reply
resolves the second of them with the reply's payload, and firing the first
call's timer leaves no listener under identifier 100. -/
theorem collision_fan_out_witness :
    (step (run init [Event.call 5000 100 true, Event.call 5000 100 true])
        (Event.inbound { id := some 100, result := some 3 })).calls[1]? =
        some { id := 100, status := CallStatus.resolved (some 3) } ∧
      ∀ p ∈ (step (run init [Event.call 5000 100 true, Event.call 5000 100 true])
          (Event.timer 0)).listeners, p.1 ≠ 100 :=
  ⟨(collision_fan_out (run init [Event.call 5000 100 true, Event.call 5000 100 true])
        { id := some 100, result := some 3 } 100 rfl).1 1
      { id := 100, status := CallStatus.pending } (by decide) (by decide) rfl,
    (collision_fan_out (run init [Event.call 5000 100 true, Event.call 5000 100 true])
        { id := some 100, result := some 3 } 100 rfl).2 0
      { id := 100, status := CallStatus.pending } (by decide) (by decide)⟩

/-! ### Unbounded timeout (timeout = 0 or negative) -/

lemma outcomeOf_ne_timeout (m : InMessage) :
    outcomeOf m ≠ CallStatus.rejected ErrKind.ipcTimeout := by
  cases h : m.error <;> simp [outcomeOf, h]

lemma handleMessage_calls_length (st : State) (m : InMessage) :
    (handleMessage st m).calls.length = st.calls.length := by
  cases hid : m.id with
  | some i => simp [handleMessage, hid, emitReply, settleCalls_length]
  | none =>
    cases ht : m.type with
    | none => simp [handleMessage, hid, ht]
    | some t =>
      by_cases h1 : t = "notifyClient"
      · simp [handleMessage, hid, ht, h1]
      · by_cases h2 : t = "pushEncode" <;> simp [handleMessage, hid, ht, h1, h2]

lemma handleMessage_calls_none (st : State) (m : InMessage) (hid : m.id = none) :
    (handleMessage st m).calls = st.calls := by
  cases ht : m.type with
  | none => simp [handleMessage, hid, ht]
  | some t =>
    by_cases h1 : t = "notifyClient"
    · simp [handleMessage, hid, ht, h1]
    · by_cases h2 : t = "pushEncode" <;> simp [handleMessage, hid, ht, h1, h2]

lemma handleMessage_calls_some (st : State) (m : InMessage) (i : Nat) (hid : m.id = some i) :
    (handleMessage st m).calls = settleCalls st.calls
      ((st.listeners.filter (fun p => decide (p.1 = i))).map (fun p => p.2))
      (outcomeOf m) := by
  simp [handleMessage, hid, emitReply]

lemma handleMessage_timers (st : State) (m : InMessage) :
    (handleMessage st m).timers = st.timers := by
  cases hid : m.id with
  | some i => simp [handleMessage, hid, emitReply]
  | none =>
    cases ht : m.type with
    | none => simp [handleMessage, hid, ht]
    | some t =>
      by_cases h1 : t = "notifyClient"
      · simp [handleMessage, hid, ht, h1]
      · by_cases h2 : t = "pushEncode" <;> simp [handleMessage, hid, ht, h1, h2]

lemma step_calls_length (st : State) (e : Event) :
    st.calls.length ≤ (step st e).calls.length := by
  cases e with
  | call t n a => simp [step, sendStep]
  | inbound m => rw [step, handleMessage_calls_length]
  | timer c =>
    simp only [step, fireTimer]
    by_cases hm : c ∈ st.timers
    · simp only [hm, if_true]
      cases hr : st.calls[c]? <;> simp [settleAt_length]
    · simp [hm]
  | chanLoss => exact le_refl _

lemma timersBound_step (st : State) (e : Event) (h : timersBound st) :
    timersBound (step st e) := by
  cases e with
  | call t n a =>
    intro x hx
    simp only [step, sendStep] at hx ⊢
    rw [List.length_append]
    by_cases hcond : (0 : Int) < t
    · rw [if_pos hcond] at hx
      rcases List.mem_append.mp hx with h1 | h1
      · exact lt_of_lt_of_le (h x h1) (by simp)
      · simp only [List.mem_singleton] at h1
        subst h1
        simp
    · rw [if_neg hcond] at hx
      exact lt_of_lt_of_le (h x hx) (by simp)
  | inbound m =>
    intro x hx
    rw [step, handleMessage_timers] at hx
    rw [step, handleMessage_calls_length]
    exact h x hx
  | timer c =>
    intro x hx
    simp only [step, fireTimer] at hx ⊢
    by_cases hm : c ∈ st.timers
    · simp only [hm, if_true] at hx ⊢
      cases hr : st.calls[c]? with
      | some r =>
        simp only [hr] at hx ⊢
        rw [settleAt_length]
        exact h x (List.mem_of_mem_erase hx)
      | none =>
        simp only [hr] at hx ⊢
        exact h x (List.mem_of_mem_erase hx)
    · simp only [hm, if_false] at hx ⊢
      exact h x hx
  | chanLoss => exact h

lemma neverTimeoutInv_step (st : State) (e : Event) (c : Nat)
    (h : neverTimeoutInv st c) : neverTimeoutInv (step st e) c := by
  obtain ⟨hnt, hlt, hst⟩ := h
  refine ⟨?_, lt_of_lt_of_le hlt (step_calls_length st e), ?_⟩
  · cases e with
    | call t n a =>
      simp only [step, sendStep]
      by_cases hcond : (0 : Int) < t
      · rw [if_pos hcond]
        intro hx
        rcases List.mem_append.mp hx with h1 | h1
        · exact hnt h1
        · simp only [List.mem_singleton] at h1
          exact absurd h1 (Nat.ne_of_lt hlt)
      · rw [if_neg hcond]
        exact hnt
    | inbound m =>
      rw [step, handleMessage_timers]
      exact hnt
    | timer d =>
      simp only [step, fireTimer]
      by_cases hm : d ∈ st.timers
      · simp only [hm, if_true]
        cases hr : st.calls[d]? with
        | some r =>
          intro hx
          exact hnt (List.mem_of_mem_erase hx)
        | none =>
          intro hx
          exact hnt (List.mem_of_mem_erase hx)
      · simp only [hm, if_false]
        exact hnt
    | chanLoss => exact hnt
  · intro r hr
    cases e with
    | call t n a =>
      simp only [step, sendStep] at hr
      rw [getElem?_append_lt _ _ _ hlt] at hr
      exact hst r hr
    | inbound m =>
      simp only [step] at hr
      cases hid : m.id with
      | some i =>
        rw [handleMessage_calls_some st m i hid] at hr
        rw [settleCalls_getElem? _ _ _ (outcomeOf_ne_pending m)] at hr
        cases hc : st.calls[c]? with
        | none => rw [hc] at hr; cases hr
        | some r0 =>
          rw [hc] at hr
          simp only [Option.map_some'] at hr
          by_cases hcond : c ∈ (st.listeners.filter (fun p => decide (p.1 = i))).map
              (fun p => p.2) ∧ r0.status = CallStatus.pending
          · rw [if_pos hcond] at hr
            have hh := Option.some.inj hr
            subst hh
            simpa using outcomeOf_ne_timeout m
          · rw [if_neg hcond] at hr
            have hh := Option.some.inj hr
            subst hh
            exact hst r0 hc
      | none =>
        rw [handleMessage_calls_none st m hid] at hr
        exact hst r hr
    | timer d =>
      simp only [step, fireTimer] at hr
      by_cases hm : d ∈ st.timers
      · have hdc : ¬d = c := fun hh => hnt (hh ▸ hm)
        simp only [hm, if_true] at hr
        cases hc : st.calls[d]? with
        | some r0 =>
          simp only [hc] at hr
          rw [settleAt_getElem?] at hr
          cases hcc : st.calls[c]? with
          | none => rw [hcc] at hr; cases hr
          | some r1 =>
            rw [hcc] at hr
            simp only [Option.map_some'] at hr
            have : ¬(c = d ∧ r1.status = CallStatus.pending) := fun hh => hdc hh.1.symm
            rw [if_neg this] at hr
            have hh := Option.some.inj hr
            subst hh
            exact hst r1 hcc
        | none =>
          simp only [hc] at hr
          exact hst r hr
      · simp only [hm, if_false] at hr
        exact hst r hr
    | chanLoss => exact hst r hr

lemma inv_run (st : State) (es : List Event) (c : Nat) (h : neverTimeoutInv st c) :
    neverTimeoutInv (run st es) c := by
  induction es generalizing st with
  | nil => exact h
  | cons e es ih => exact ih (step st e) (neverTimeoutInv_step st e c h)

/-- C6.  Unbounded timeout: a call issued with timeout 0 (or negative) arms
no timeout timer, and along any further sequence of scheduled callbacks its
promise is never rejected with the timeout error — it can only settle through
a reply. -/
theorem unbounded_timeout (st : State) (t : Int) (n : Nat) (a : Bool) (es : List Event)
    (hb : timersBound st) (ht : t ≤ 0) :
    st.calls.length ∉ (step st (Event.call t n a)).timers ∧
      ∀ r, (run (step st (Event.call t n a)) es).calls[st.calls.length]? = some r →
        r.status ≠ CallStatus.rejected ErrKind.ipcTimeout := by
  have hfresh : st.calls.length ∉ st.timers := fun hx => lt_irrefl _ (hb _ hx)
  have htimers : (step st (Event.call t n a)).timers = st.timers := by
    simp only [step, sendStep]
    rw [if_neg (not_lt.mpr ht)]
  have hinv : neverTimeoutInv (step st (Event.call t n a)) st.calls.length := by
    refine ⟨htimers ▸ hfresh, by simp [step, sendStep], ?_⟩
    intro r hr
    simp only [step, sendStep] at hr
    rw [List.getElem?_concat_length] at hr
    cases hr
    simp
  exact ⟨htimers ▸ hfresh, (inv_run _ es _ hinv).2.2⟩

/-- Witness for C6: a call with timeout 0 survives a stray timer firing and a
channel loss without ever being rejected with the timeout error. -/
theorem unbounded_timeout_witness :
    init.calls.length ∉ (step init (Event.call 0 11 true)).timers ∧
      ∀ r, (run (step init (Event.call 0 11 true))
          [Event.timer 0, Event.chanLoss]).calls[init.calls.length]? = some r →
        r.status ≠ CallStatus.rejected ErrKind.ipcTimeout :=
  unbounded_timeout init 0 11 true [Event.timer 0, Event.chanLoss]
    (by intro x hx; cases hx) (by decide)

/-! ### Table quiescence -/

lemma getElem?_concat {α : Type} (l : List α) (x : α) (j : Nat) :
    (l ++ [x])[j]? = if j < l.length then l[j]?
      else if j = l.length then some x else none := by
  rcases lt_trichotomy j l.length with hlt | heq | hgt
  · rw [getElem?_append_lt _ _ _ hlt, if_pos hlt]
  · subst heq
    rw [List.getElem?_concat_length, if_neg (lt_irrefl _), if_pos rfl]
  · rw [if_neg (not_lt.mpr (le_of_lt hgt)), if_neg (Nat.ne_of_gt hgt)]
    rw [List.getElem?_append, if_neg (not_lt.mpr (le_of_lt hgt))]
    have h1 : 1 ≤ j - l.length := by omega
    cases hj : j - l.length with
    | zero => omega
    | succ k => rfl

lemma filter_range_length {α : Type} (l : List α) (p : α → Bool) :
    ((List.range l.length).filter (fun i => (l[i]?).elim false p)).length =
      (l.filter p).length := by
  induction l with
  | nil => simp
  | cons a l ih =>
    have hcomp : ((fun i => ((a :: l)[i]?).elim false p) ∘ Nat.succ) =
        fun i => (l[i]?).elim false p := by
      funext i
      simp [Function.comp]
    cases hpa : p a with
    | true =>
      simp [List.range_succ_eq_map, List.filter_cons, List.filter_map,
        hcomp, hpa, ih]
    | false =>
      simp [List.range_succ_eq_map, List.filter_cons, List.filter_map,
        hcomp, hpa, ih]

lemma settleCalls_id (cs : List CallRec) (idxs : List Nat) (out : CallStatus)
    (j : Nat) (r' : CallRec) (hout : out ≠ CallStatus.pending)
    (h : (settleCalls cs idxs out)[j]? = some r') :
    ∃ r, cs[j]? = some r ∧ r'.id = r.id := by
  rw [settleCalls_getElem? _ _ _ hout] at h
  cases hc : cs[j]? with
  | none => rw [hc] at h; cases h
  | some r =>
    rw [hc] at h
    simp only [Option.map_some'] at h
    have hh := Option.some.inj h
    refine ⟨r, rfl, ?_⟩
    rw [← hh]
    by_cases b : j ∈ idxs ∧ r.status = CallStatus.pending
    · rw [if_pos b]
    · rw [if_neg b]

lemma settleAt_id (cs : List CallRec) (c : Nat) (out : CallStatus)
    (j : Nat) (r' : CallRec) (h : (settleAt cs c out)[j]? = some r') :
    ∃ r, cs[j]? = some r ∧ r'.id = r.id := by
  rw [settleAt_getElem?] at h
  cases hc : cs[j]? with
  | none => rw [hc] at h; cases h
  | some r =>
    rw [hc] at h
    simp only [Option.map_some'] at h
    have hh := Option.some.inj h
    refine ⟨r, rfl, ?_⟩
    rw [← hh]
    by_cases b : j = c ∧ r.status = CallStatus.pending
    · rw [if_pos b]
    · rw [if_neg b]

lemma handleMessage_listeners_none (st : State) (m : InMessage) (hid : m.id = none) :
    (handleMessage st m).listeners = st.listeners := by
  cases ht : m.type with
  | none => simp [handleMessage, hid, ht]
  | some t =>
    by_cases h1 : t = "notifyClient"
    · simp [handleMessage, hid, ht, h1]
    · by_cases h2 : t = "pushEncode" <;> simp [handleMessage, hid, ht, h1, h2]

lemma tableInv_init : tableInv init := by
  refine ⟨?_, ?_, ?_, ?_⟩
  · intro p hp
    cases hp
  · intro c r hc
    simp [init] at hc
  · simp [init, tableInv]
  · intro c c' r r' hc
    simp [init] at hc

lemma tableInv_sendStep (st : State) (t : Int) (n : Nat) (a : Bool)
    (hfresh : ∀ r ∈ st.calls, ¬r.id = n) (h : tableInv st) :
    tableInv (sendStep st t n a) := by
  obtain ⟨h1, h2, h3, h4⟩ := h
  have hlt : ∀ p ∈ st.listeners, p.2 < st.calls.length := by
    intro p hp
    obtain ⟨r, hr, _, _⟩ := h1 p hp
    exact (List.getElem?_eq_some.mp hr).1
  have hcallsEq : (sendStep st t n a).calls =
      st.calls ++ [{ id := n, status := CallStatus.pending }] := rfl
  have hlistEq : (sendStep st t n a).listeners =
      st.listeners ++ [(n, st.calls.length)] := rfl
  refine ⟨?_, ?_, ?_, ?_⟩
  · intro p hp
    rw [hlistEq] at hp
    rw [hcallsEq]
    rcases List.mem_append.mp hp with hold | hnew
    · obtain ⟨r, hr, hidr, hpend⟩ := h1 p hold
      exact ⟨r, by rw [getElem?_append_lt _ _ _ (hlt p hold)]; exact hr, hidr, hpend⟩
    · simp only [List.mem_singleton] at hnew
      subst hnew
      exact ⟨_, List.getElem?_concat_length _ _, rfl, rfl⟩
  · intro c r hc hpend
    rw [hcallsEq, getElem?_concat] at hc
    rw [hlistEq]
    by_cases hc1 : c < st.calls.length
    · rw [if_pos hc1] at hc
      exact List.mem_append.mpr (Or.inl (h2 c r hc hpend))
    · rw [if_neg hc1] at hc
      by_cases hc2 : c = st.calls.length
      · rw [if_pos hc2] at hc
        have hh := Option.some.inj hc
        refine List.mem_append.mpr (Or.inr ?_)
        rw [← hh, hc2]
        simp
      · rw [if_neg hc2] at hc
        cases hc
  · rw [hlistEq, List.map_append]
    rw [List.nodup_append]
    refine ⟨h3, List.nodup_singleton _, ?_⟩
    intro x hx hx2
    simp only [List.map_cons, List.map_nil, List.mem_singleton] at hx2
    obtain ⟨p, hp, hps⟩ := List.mem_map.mp hx
    have := hlt p hp
    omega
  · intro c c' r r' hc hc' hidEq
    rw [hcallsEq, getElem?_concat] at hc hc'
    by_cases b1 : c < st.calls.length
    · rw [if_pos b1] at hc
      by_cases b2 : c' < st.calls.length
      · rw [if_pos b2] at hc'
        exact h4 c c' r r' hc hc' hidEq
      · rw [if_neg b2] at hc'
        by_cases e2 : c' = st.calls.length
        · rw [if_pos e2] at hc'
          have hh := Option.some.inj hc'
          exfalso
          have hrmem : r ∈ st.calls := by
            obtain ⟨hl2, hget⟩ := List.getElem?_eq_some.mp hc
            exact hget ▸ List.getElem_mem hl2
          exact hfresh r hrmem (by rw [hidEq, ← hh])
        · rw [if_neg e2] at hc'
          cases hc'
    · rw [if_neg b1] at hc
      by_cases e1 : c = st.calls.length
      · rw [if_pos e1] at hc
        have hh := Option.some.inj hc
        by_cases b2 : c' < st.calls.length
        · rw [if_pos b2] at hc'
          exfalso
          have hrmem : r' ∈ st.calls := by
            obtain ⟨hl2, hget⟩ := List.getElem?_eq_some.mp hc'
            exact hget ▸ List.getElem_mem hl2
          exact hfresh r' hrmem (by rw [← hidEq, ← hh])
        · rw [if_neg b2] at hc'
          by_cases e2 : c' = st.calls.length
          · rw [e1, e2]
          · rw [if_neg e2] at hc'
            cases hc'
      · rw [if_neg e1] at hc
        cases hc

lemma tableInv_reply (st : State) (m : InMessage) (i : Nat) (hid : m.id = some i)
    (h : tableInv st) : tableInv (handleMessage st m) := by
  obtain ⟨h1, h2, h3, h4⟩ := h
  have hinj := List.inj_on_of_nodup_map h3
  have hcallsEq : (handleMessage st m).calls = settleCalls st.calls
      ((st.listeners.filter (fun p => decide (p.1 = i))).map (fun p => p.2))
      (outcomeOf m) := handleMessage_calls_some st m i hid
  have hlistEq : (handleMessage st m).listeners =
      st.listeners.filter (fun p => decide (¬p.1 = i)) := by
    simp [handleMessage, hid, emitReply]
  have hmem_idxs : ∀ c, c ∈ ((st.listeners.filter (fun p => decide (p.1 = i))).map
          (fun p => p.2)) ↔
        ∃ q ∈ st.listeners, q.1 = i ∧ q.2 = c := by
    intro c
    constructor
    · intro hc
      obtain ⟨q, hq, hq2⟩ := List.mem_map.mp hc
      obtain ⟨hql, hqi⟩ := List.mem_filter.mp hq
      exact ⟨q, hql, by simpa using hqi, hq2⟩
    · intro ⟨q, hql, hqi, hq2⟩
      exact List.mem_map.mpr ⟨q, List.mem_filter.mpr ⟨hql, by simpa using hqi⟩, hq2⟩
  refine ⟨?_, ?_, ?_, ?_⟩
  · intro p hp
    rw [hlistEq] at hp
    obtain ⟨hpl, hpneq⟩ := List.mem_filter.mp hp
    have hpne : ¬p.1 = i := by simpa using hpneq
    obtain ⟨r, hr, hidr, hpend⟩ := h1 p hpl
    have hnotin : p.2 ∉ (st.listeners.filter (fun q => decide (q.1 = i))).map
        (fun q => q.2) := by
      intro hmem
      obtain ⟨q, hql, hqi, hq2⟩ := (hmem_idxs p.2).mp hmem
      have hqp : q = p := hinj hql hpl hq2
      exact hpne (hqp ▸ hqi)
    rw [hcallsEq, settleCalls_getElem? _ _ _ (outcomeOf_ne_pending m), hr]
    simp only [Option.map_some']
    rw [if_neg (fun hx => hnotin hx.1)]
    exact ⟨r, rfl, hidr, hpend⟩
  · intro c r' hc' hpend'
    rw [hcallsEq, settleCalls_getElem? _ _ _ (outcomeOf_ne_pending m)] at hc'
    cases hcc : st.calls[c]? with
    | none => rw [hcc] at hc'; cases hc'
    | some r =>
      rw [hcc] at hc'
      simp only [Option.map_some'] at hc'
      have hh := Option.some.inj hc'
      by_cases b : c ∈ ((st.listeners.filter (fun p => decide (p.1 = i))).map
          (fun p => p.2)) ∧ r.status = CallStatus.pending
      · rw [if_pos b] at hh
        rw [← hh] at hpend'
        exact absurd hpend' (by simpa using outcomeOf_ne_pending m)
      · rw [if_neg b] at hh
        subst hh
        have hpend := hpend'
        have hne : ¬r.id = i := by
          intro he
          refine b ⟨(hmem_idxs c).mpr ⟨(r.id, c), h2 c r hcc hpend, he, rfl⟩, hpend⟩
        rw [hlistEq]
        exact List.mem_filter.mpr ⟨h2 c r hcc hpend, by simpa using hne⟩
  · rw [hlistEq]
    exact List.Nodup.sublist (List.Sublist.map _ (List.filter_sublist _)) h3
  · intro c c' r1 r2 hcx hcy hidEq
    rw [hcallsEq] at hcx hcy
    obtain ⟨s1, hs1, hi1⟩ :=
      settleCalls_id _ _ _ _ _ (outcomeOf_ne_pending m) hcx
    obtain ⟨s2, hs2, hi2⟩ :=
      settleCalls_id _ _ _ _ _ (outcomeOf_ne_pending m) hcy
    exact h4 c c' s1 s2 hs1 hs2 (by rw [← hi1, ← hi2, hidEq])

lemma tableInv_push (st : State) (m : InMessage) (hid : m.id = none)
    (h : tableInv st) : tableInv (handleMessage st m) := by
  unfold tableInv at h ⊢
  rw [handleMessage_calls_none st m hid, handleMessage_listeners_none st m hid]
  exact h

lemma tableInv_fireTimer (st : State) (c : Nat) (h : tableInv st) :
    tableInv (fireTimer st c) := by
  obtain ⟨h1, h2, h3, h4⟩ := h
  by_cases hm : c ∈ st.timers
  · cases hr : st.calls[c]? with
    | none =>
      have heq : fireTimer st c = { st with timers := st.timers.erase c } := by
        simp [fireTimer, hm, hr]
      rw [heq]
      exact ⟨h1, h2, h3, h4⟩
    | some r =>
      rw [fireTimer_armed st c r hm hr]
      refine ⟨?_, ?_, ?_, ?_⟩
      · intro p hp
        obtain ⟨hpl, hpneq⟩ := List.mem_filter.mp hp
        have hpne : ¬p.1 = r.id := by simpa using hpneq
        obtain ⟨rp, hrp, hidp, hpend⟩ := h1 p hpl
        have hp2c : ¬p.2 = c := by
          intro he
          rw [he, hr] at hrp
          have hre := Option.some.inj hrp
          exact hpne (by rw [← hidp, ← hre])
        refine ⟨rp, ?_, hidp, hpend⟩
        show (settleAt st.calls c (CallStatus.rejected ErrKind.ipcTimeout))[p.2]? = some rp
        rw [settleAt_getElem?, hrp]
        simp only [Option.map_some']
        rw [if_neg (fun hx => hp2c hx.1)]
      · intro c' r' hc' hpend'
        rw [show ({ st with
            timers := st.timers.erase c,
            listeners := st.listeners.filter (fun p => decide (¬p.1 = r.id)),
            calls := settleAt st.calls c (CallStatus.rejected ErrKind.ipcTimeout) }
              : State).calls =
          settleAt st.calls c (CallStatus.rejected ErrKind.ipcTimeout) from rfl,
          settleAt_getElem?] at hc'
        cases hcc : st.calls[c']? with
        | none => rw [hcc] at hc'; cases hc'
        | some s =>
          rw [hcc] at hc'
          simp only [Option.map_some'] at hc'
          have hh := Option.some.inj hc'
          by_cases b : c' = c ∧ s.status = CallStatus.pending
          · rw [if_pos b] at hh
            rw [← hh] at hpend'
            cases hpend'
          · rw [if_neg b] at hh
            subst hh
            have hne : ¬s.id = r.id := by
              intro he
              exact b ⟨h4 c' c s r hcc hr he, hpend'⟩
            exact List.mem_filter.mpr ⟨h2 c' s hcc hpend', by simpa using hne⟩
      · exact List.Nodup.sublist (List.Sublist.map _ (List.filter_sublist _)) h3
      · intro c1 c2 r1 r2 hcx hcy hidEq
        obtain ⟨s1, hs1, hi1⟩ := settleAt_id _ _ _ _ _ hcx
        obtain ⟨s2, hs2, hi2⟩ := settleAt_id _ _ _ _ _ hcy
        exact h4 c1 c2 s1 s2 hs1 hs2 (by rw [← hi1, ← hi2, hidEq])
  · rw [show fireTimer st c = st from by simp [fireTimer, hm]]
    exact ⟨h1, h2, h3, h4⟩

lemma tableInv_step (st : State) (e : Event) (hfresh : freshOk st e = true)
    (h : tableInv st) : tableInv (step st e) := by
  cases e with
  | call t n a =>
    have hf : ∀ r ∈ st.calls, ¬r.id = n := by
      intro r hr
      have := (List.all_eq_true.mp hfresh) r hr
      simpa using this
    exact tableInv_sendStep st t n a hf h
  | inbound m =>
    cases hid : m.id with
    | some i => exact tableInv_reply st m i hid h
    | none => exact tableInv_push st m hid h
  | timer c => exact tableInv_fireTimer st c h
  | chanLoss => exact h

lemma tableInv_run (st : State) (es : List Event) (hok : okRun st es = true)
    (h : tableInv st) : tableInv (run st es) := by
  induction es generalizing st with
  | nil => exact h
  | cons e es ih =>
    rw [okRun, Bool.and_eq_true] at hok
    exact ih (step st e) hok.2 (tableInv_step st e hok.1 h)

lemma tableInv_size (st : State) (h : tableInv st) : tableSize st = inFlight st := by
  obtain ⟨h1, h2, h3, h4⟩ := h
  have hperm : (st.listeners.map (fun p => p.2)).Perm
      ((List.range st.calls.length).filter (fun c =>
        (st.calls[c]?).elim false (fun r => decide (r.status = CallStatus.pending)))) := by
    rw [List.perm_ext_iff_of_nodup h3 (List.Nodup.filter _ (List.nodup_range _))]
    intro c
    constructor
    · intro hc
      obtain ⟨p, hp, hp2⟩ := List.mem_map.mp hc
      obtain ⟨r, hr, hidr, hpend⟩ := h1 p hp
      rw [← hp2]
      refine List.mem_filter.mpr
        ⟨List.mem_range.mpr (List.getElem?_eq_some.mp hr).1, ?_⟩
      rw [hr]
      simp [hpend]
    · intro hc
      obtain ⟨hcr, hcp⟩ := List.mem_filter.mp hc
      cases hr : st.calls[c]? with
      | none => rw [hr] at hcp; cases hcp
      | some r =>
        rw [hr] at hcp
        simp only [Option.elim, decide_eq_true_eq] at hcp
        exact List.mem_map.mpr ⟨(r.id, c), h2 c r hr hcp, rfl⟩
  have hlen := hperm.length_eq
  rw [List.length_map] at hlen
  show st.listeners.length = (st.calls.filter _).length
  rw [hlen]
  exact filter_range_length st.calls (fun r => decide (r.status = CallStatus.pending))

/-- C9 counterexample: two calls collide on identifier 7 (issued in the same
clock millisecond); when the first call's timeout fires, `removeAllListeners`
removes the second call's listener too, so afterwards the table is empty
while one call is still in flight. -/
theorem table_quiescence_ce :
    tableSize (run init [Event.call 100 7 true, Event.call 200 7 true,
        Event.timer 0]) = 0 ∧
      inFlight (run init [Event.call 100 7 true, Event.call 200 7 true,
        Event.timer 0]) = 1 := by
  exact ⟨rfl, rfl⟩

/-- C9 amended: provided every call's identifier is fresh (distinct from the
identifier of every existing call, as the identifier contract requires), the
correlation table's size equals the number of in-flight calls at every
reachable instant — in particular the table is empty whenever no calls are
outstanding.  Under the source's timestamp scheme an identifier collision can
break this: a timeout firing removes another pending call's entry. -/
theorem table_quiescence (es : List Event) (hok : okRun init es = true) :
    tableSize (run init es) = inFlight (run init es) :=
  tableInv_size _ (tableInv_run init es hok tableInv_init)

/-- Witness for C9 amended: two fresh-id calls, one settled by a reply. -/
theorem table_quiescence_witness :
    tableSize (run init [Event.call 5000 1 true, Event.call 5000 2 true,
        Event.inbound { id := some 1, result := some 0 }]) =
      inFlight (run init [Event.call 5000 1 true, Event.call 5000 2 true,
        Event.inbound { id := some 1, result := some 0 }]) :=
  table_quiescence [Event.call 5000 1 true, Event.call 5000 2 true,
    Event.inbound { id := some 1, result := some 0 }] (by decide)

end IPC
